import Mathlib

/-!
# WavesGUI: balance reconciliation in the `assets` service

A shallow embedding of `src/modules/app/services/waves/node/content/Assets.js`:
the static helpers `_getMoneySub`, `_remapAssetsMoney`, `_remapBalance`,
`_filterOrders`, `_remapOrders` and the methods `info`, `balanceList`,
`_getBalanceOrders`, `_getEmptyBalanceList`, together with the collaborators
they call (`Money`, `utils.groupMoney`, `utils.toHash`, `Cache`, `PollCache`).

A thrown exception or a rejected promise is an `Except.error`; a resolved
promise is an `Except.ok`.

The alias form of `src/modules/utils/modals/accountInfo/AccountInfoCtrl.js`
(`_validateNewAlias`) follows the poll cache.
-/

set_option autoImplicit false

namespace WavesGUI

/-! ## Data model -/

/-- The ways an operation of the service can fail (spec, section 7). -/
inductive Failure where
  | AssetMismatch
  | AssetNotFound
  | RefreshFailed
deriving DecidableEq, Repr

/-- Asset descriptor: `id`, `name`, `precision`, `reissuable`, `quantity`. -/
structure Asset where
  id : String
  name : String
  precision : Nat
  reissuable : Bool
  quantity : ℚ
deriving DecidableEq

/-- Modelled from the spec: the `Money` class of the Waves API library, which is
not part of the sources. A money value is an exact decimal amount tied to an
asset, stored in integer minor units (coins) and exposed in major units
(tokens). The amount is kept here in tokens as a rational number; the
amounts `cloneWithCoins` and `cloneWithTokens` build are whole numbers of
coins of the asset. -/
structure Money where
  asset : Asset
  tokens : ℚ
deriving DecidableEq

/-- The whole part of a rational number: rounding toward zero. -/
def truncate (x : ℚ) : ℤ := if 0 ≤ x then ⌊x⌋ else ⌈x⌉

namespace Money

/-- Modelled from the spec: `money.getTokens()`, the amount in tokens. -/
def getTokens (m : Money) : ℚ := m.tokens

/-- Modelled from the spec: `money.cloneWithCoins(coins)`, the same asset with
a new amount given in coins (minor units). -/
def cloneWithCoins (m : Money) (coins : ℤ) : Money :=
  { asset := m.asset, tokens := (coins : ℚ) / (10 : ℚ) ^ m.asset.precision }

/-- Modelled from the spec: the coins of an amount given in tokens. An amount
is stored in integer minor units, so what the tokens hold beyond the
precision of the asset is cut off. -/
def tokensToCoins (tokens : ℚ) (precision : Nat) : ℤ :=
  truncate (tokens * (10 : ℚ) ^ precision)

/-- Modelled from the spec: `money.cloneWithTokens(tokens)`, the same asset
with a new amount given in tokens, stored as a whole number of coins. -/
def cloneWithTokens (m : Money) (t : ℚ) : Money :=
  m.cloneWithCoins (tokensToCoins t m.asset.precision)

/-- Modelled from the spec: `a.sub(b)` fails with `AssetMismatch` when the
asset ids differ, and otherwise is the difference in the asset of `a`. -/
def sub (a b : Money) : Except Failure Money :=
  if a.asset.id = b.asset.id then
    .ok { asset := a.asset, tokens := a.tokens - b.tokens }
  else
    .error Failure.AssetMismatch

end Money

/-- The record `IBalanceDetails` of `Assets.js`: one categorized balance row. -/
structure IBalanceDetails where
  asset : Asset
  regular : Money
  available : Money
  inOrders : Money
  leasedOut : Money
  leasedIn : Money
deriving DecidableEq

/-- The `wavesBalance` part of the node's answer for an address. -/
structure WavesBalance where
  regular : Money
  available : Money
  leasedOut : Money
  leasedIn : Money
deriving DecidableEq

/-- The node's answer `Waves.API.Node.v2.addresses.get(address)`. -/
structure WavesDetails where
  wavesBalance : WavesBalance
  aliases : List String
deriving DecidableEq

/-- A raw order of the matcher. -/
structure Order where
  status : String
  type : String
  amount : Money
  filled : Money
  price : Money
deriving DecidableEq

/-- Array `map` with a callback that may throw: the first failure aborts. -/
def mapThrowing {α β : Type} (f : α → Except Failure β) : List α → Except Failure (List β)
  | [] => .ok []
  | a :: l =>
    match f a with
    | .error e => .error e
    | .ok b =>
      match mapThrowing f l with
      | .error e => .error e
      | .ok bs => .ok (b :: bs)

/-- Modelled from the spec: `utils.groupMoney`, which is not part of the
sources: "group into per-asset sums (mapping assetId → summed MoneyValue;
missing asset ⇒ implicit zero)". The hash is read through its lookup: no
entry when no money of the list has the id, otherwise the sum of the monies
with that id, in the asset of the first of them. -/
def groupMoney (moneyList : List Money) (id : String) : Option Money :=
  match moneyList.filter (fun m => m.asset.id = id) with
  | [] => none
  | m :: ms => some { asset := m.asset, tokens := ((m :: ms).map Money.tokens).sum }

/-- The per-asset sum of a money list for one asset id (zero without entry). -/
def assetSum (moneyList : List Money) (id : String) : ℚ :=
  ((moneyList.filter (fun m => m.asset.id = id)).map Money.tokens).sum

namespace Assets

/-- `Assets._getMoneySub(money, ...toSubMoneyList)`: subtract every amount in
turn, then replace a negative result by zero coins of the same asset. -/
def _getMoneySub (money : Money) (toSubMoneyList : List Money) : Except Failure Money :=
  match toSubMoneyList.foldlM (fun result toSub => result.sub toSub) money with
  | .error e => .error e
  | .ok result =>
    if result.getTokens < 0 then
      .ok (result.cloneWithCoins 0)
    else
      .ok result

/-- `Assets._remapAssetsMoney(orderMoneyHash, eventsMoneyHash)(money)`: the row
of one asset balance. A hash is read through its lookup; `hash[id] || zero`
is `(hash id).getD zero`, a money object being truthy. -/
def _remapAssetsMoney (orderMoneyHash eventsMoneyHash : String → Option Money)
    (money : Money) : Except Failure IBalanceDetails :=
  let eventsMoney := (eventsMoneyHash money.asset.id).getD (money.cloneWithCoins 0)
  let inOrders := (orderMoneyHash money.asset.id).getD (money.cloneWithCoins 0)
  match _getMoneySub money [eventsMoney] with
  | .error e => .error e
  | .ok regular =>
    match _getMoneySub money [eventsMoney, inOrders] with
    | .error e => .error e
    | .ok available =>
      .ok { asset := money.asset
            regular := regular
            available := available
            inOrders := inOrders
            leasedOut := money.cloneWithCoins 0
            leasedIn := money.cloneWithCoins 0 }

/-- `Assets._remapBalance([wavesDetails, moneyList, orderMoneyList])`. The
constant `WavesApp.defaultAssets.WAVES` is the parameter `WAVES` and the
answer of `eventManager.getReservedMoneyList()` is the parameter
`reservedMoneyList`. The write `aliases.aliases = wavesDetails.aliases` goes
to another service and does not touch the returned rows. -/
def _remapBalance (WAVES : String) (reservedMoneyList : List Money)
    (wavesDetails : WavesDetails) (moneyList orderMoneyList : List Money) :
    Except Failure (List IBalanceDetails) :=
  let orderMoneyHash := groupMoney orderMoneyList
  let eventsMoneyHash := groupMoney reservedMoneyList
  let wavesNodeRegular := wavesDetails.wavesBalance.regular
  let wavesNodeAvailable := wavesDetails.wavesBalance.available
  let wavesTx := (eventsMoneyHash WAVES).getD (wavesNodeRegular.cloneWithCoins 0)
  let wavesOrder := (orderMoneyHash WAVES).getD (wavesNodeRegular.cloneWithCoins 0)
  match _getMoneySub wavesNodeRegular [wavesTx] with
  | .error e => .error e
  | .ok regular =>
    match _getMoneySub wavesNodeAvailable [wavesTx, wavesOrder] with
    | .error e => .error e
    | .ok available =>
      match mapThrowing (_remapAssetsMoney orderMoneyHash eventsMoneyHash) (moneyList.drop 1) with
      | .error e => .error e
      | .ok rows =>
        .ok ({ asset := wavesNodeRegular.asset
               regular := regular
               available := available
               inOrders := wavesOrder
               leasedOut := wavesDetails.wavesBalance.leasedOut
               leasedIn := wavesDetails.wavesBalance.leasedIn } :: rows)

/-- `Assets._filterOrders({ status })`. -/
def _filterOrders (order : Order) : Bool :=
  order.status = "Accepted" || order.status = "PartiallyFilled"

/-- `Assets._remapOrders(order)`: the amount an order locks. The `switch` has
no default case: for another type the result is `undefined`, here `none`. -/
def _remapOrders (order : Order) : Except Failure (Option Money) :=
  if order.type = "sell" then
    match order.amount.sub order.filled with
    | .error e => .error e
    | .ok locked => .ok (some locked)
  else if order.type = "buy" then
    match order.amount.sub order.filled with
    | .error e => .error e
    | .ok unfilled =>
      let tokens := unfilled.getTokens * order.price.getTokens
      .ok (some (order.price.cloneWithTokens tokens))
  else
    .ok none

/-- `Assets._getBalanceOrders()`, on the orders `matcher.getOrders()` resolved
with: filter by `_filterOrders`, then map by `_remapOrders`. -/
def _getBalanceOrders (orders : List Order) : Except Failure (List (Option Money)) :=
  mapThrowing _remapOrders (orders.filter _filterOrders)

/-- Modelled from the spec: `Waves.Money.fromCoins(coins, assetId)` of the Waves
API library, which is not part of the sources: it resolves the descriptor of
the id at the asset registry (failing with `AssetNotFound`) and builds the
money of that asset. -/
def fromCoins (registry : String → Option Asset) (coins : ℤ) (assetId : String) :
    Except Failure Money :=
  match registry assetId with
  | none => .error Failure.AssetNotFound
  | some asset => .ok { asset := asset, tokens := (coins : ℚ) / (10 : ℚ) ^ asset.precision }

/-- `Assets._getEmptyBalanceList(idList)`: `Promise.all` over one zero money
per id. -/
def _getEmptyBalanceList (registry : String → Option Asset) (idList : List String) :
    Except Failure (List Money) :=
  mapThrowing (fun id => fromCoins registry 0 id) idList

/-- Modelled from the spec: `utils.toHash(list, key)`, which is not part of the
sources: the list as a mapping from the key of an item to the item, read
through its lookup. Items are stored in list order, so of two items with one
key the later one stays. -/
def toHash {α : Type} (list : List α) (key : α → String) (id : String) : Option α :=
  list.reverse.find? (fun item => key item = id)

/-- `Assets.balanceList(assetIdList)`, on the snapshot `userBalances()`
resolved with. -/
def balanceList (registry : String → Option Asset) (userBalances : List IBalanceDetails)
    (assetIdList : List String) : Except Failure (List IBalanceDetails) :=
  match _getEmptyBalanceList registry assetIdList with
  | .error e => .error e
  | .ok emptyBalanceList =>
    let balances := toHash userBalances (fun b => b.available.asset.id)
    .ok (emptyBalanceList.map fun money =>
      match balances money.asset.id with
      | some found => found
      | none =>
        { asset := money.asset
          regular := money
          available := money
          inOrders := money
          leasedOut := money
          leasedIn := money })

/-- Modelled from the spec: the `Cache` class, which is not part of the
sources: a keyed cache mapping asset id to asset descriptor, read through
its lookup. -/
structure Cache where
  lookup : String → Option Asset

/-- Modelled from the spec: `cache.get(assetId)`, a pure lookup. -/
def Cache.get (cache : Cache) (assetId : String) : Option Asset := cache.lookup assetId

/-- Modelled from the spec: `cache.set(assetId, info)` stores the descriptor
keyed by the id. -/
def Cache.set (cache : Cache) (assetId : String) (info : Asset) : Cache :=
  { lookup := fun id => if id = assetId then some info else cache.lookup id }

/-- The state `Assets.info` works on: the metadata cache `this._assets` and
the log of the calls `Waves.Asset.get(assetId)` made so far, oldest first. -/
structure State where
  _assets : Cache
  registryCalls : List String

/-- `Assets.info(assetId)` run to the resolution of its promise: the outcome
and the state afterwards. -/
def info (registry : String → Option Asset) (assetId : String) (s : State) :
    Except Failure Asset × State :=
  match s._assets.get assetId with
  | some cached => (.ok cached, s)
  | none =>
    match registry assetId with
    | none =>
      (.error Failure.AssetNotFound, { s with registryCalls := s.registryCalls ++ [assetId] })
    | some info =>
      (.ok info,
        { _assets := s._assets.set assetId info
          registryCalls := s.registryCalls ++ [assetId] })

end Assets

/-! ## The poll cache -/

/-- Modelled from the spec: the `PollCache` class, which is not part of the
sources (section 4.3). The producer `getData` runs outside: the cache counts
its invocations, remembers the callers awaiting the flight and records every
answer handed to a caller, oldest first. -/
structure PollCache (T : Type) where
  timeout : Nat
  value : Option T
  fetchedAt : Nat
  inFlight : Bool
  waiting : List Nat
  producerCalls : Nat
  answers : List (Nat × Except Failure T)

namespace PollCache

variable {T : Type}

/-- Modelled from the spec: `new PollCache({ getData, timeout })`. -/
def create (timeout : Nat) : PollCache T :=
  { timeout := timeout, value := none, fetchedAt := 0, inFlight := false
    waiting := [], producerCalls := 0, answers := [] }

/-- Modelled from the spec: the cached value is fresh at time `now`: the last
successful fetch completed within `timeout`. -/
def fresh (c : PollCache T) (now : Nat) : Option T :=
  match c.value with
  | some v => if now < c.fetchedAt + c.timeout then some v else none
  | none => none

/-- Modelled from the spec: `get()` called by `caller` at time `now`: "if a
fetch is currently in flight, returns that same pending result to the
caller; if the last successful fetch completed within `timeoutMs`, returns
the cached value immediately without invoking the producer; otherwise
invokes the producer". -/
def get (c : PollCache T) (now caller : Nat) : PollCache T :=
  if c.inFlight then
    { c with waiting := c.waiting ++ [caller] }
  else
    match c.fresh now with
    | some v => { c with answers := c.answers ++ [(caller, .ok v)] }
    | none =>
      { c with inFlight := true, waiting := [caller], producerCalls := c.producerCalls + 1 }

/-- Modelled from the spec: the producer's promise resolves with `v` at time
`now`: the cache "stores its eventual result as the new cached value with a
fresh timestamp, and returns it to all callers that arrived during the
flight". -/
def resolve (c : PollCache T) (now : Nat) (v : T) : PollCache T :=
  if c.inFlight then
    { c with
      inFlight := false, waiting := [], value := some v, fetchedAt := now
      answers := c.answers ++ c.waiting.map (fun caller => (caller, .ok v)) }
  else c

/-- Modelled from the spec: the producer's promise rejects: "the failure
propagates to all callers awaiting that flight; the cache holds no stale
value update". -/
def reject (c : PollCache T) : PollCache T :=
  if c.inFlight then
    { c with
      inFlight := false, waiting := [], value := none
      answers := c.answers ++ c.waiting.map (fun caller => (caller, .error Failure.RefreshFailed)) }
  else c

end PollCache

/-- The balance cache the constructor of `Assets` creates on login:
`new PollCache({ getData: this._getBalances.bind(this), timeout: 2000, isBalance: true })`. -/
def Assets._balanceCache : PollCache (List IBalanceDetails) := PollCache.create 2000

/-! ## The clamp as the spec words it -/

/-- One subtraction "clamped to zero if the result would be negative". -/
def subClamped (result toSub : Money) : Except Failure Money :=
  match result.sub toSub with
  | .error e => .error e
  | .ok r => if r.getTokens < 0 then .ok (r.cloneWithCoins 0) else .ok r

/-- The subtraction list as the spec words it: the amounts are subtracted one
at a time and the running result is replaced by zero after each subtraction
that makes it negative. -/
def getMoneySubEachClamped (money : Money) (toSubMoneyList : List Money) :
    Except Failure Money :=
  toSubMoneyList.foldlM subClamped money

/-! ## Sample values -/

/-- The native asset, for the examples. -/
def wavesAsset : Asset :=
  { id := "WAVES", name := "Waves", precision := 8, reissuable := false, quantity := 100000000 }

/-- Another asset, for the examples. -/
def tokenAsset : Asset :=
  { id := "TKN", name := "Token", precision := 2, reissuable := true, quantity := 1000 }

/-- An amount of the native asset. -/
def waves (tokens : ℚ) : Money := { asset := wavesAsset, tokens := tokens }

/-- An amount of the other asset. -/
def token (tokens : ℚ) : Money := { asset := tokenAsset, tokens := tokens }

/-- The native balance detail of the spec's example: regular 100, available
90, leased out 5, leased in 0. -/
def exampleDetails : WavesDetails :=
  { wavesBalance := { regular := waves 100, available := waves 90
                      leasedOut := waves 5, leasedIn := waves 0 }
    aliases := [] }

/-- A registry that knows the two sample assets. -/
def sampleRegistry (id : String) : Option Asset :=
  if id = "WAVES" then some wavesAsset else if id = "TKN" then some tokenAsset else none

/-- The spec's sell order: amount 100, filled 30. -/
def sellOrder : Order :=
  { status := "Accepted", type := "sell", amount := token 100, filled := token 30
    price := waves 2 }

/-- The spec's buy order: amount 100, filled 40, price 2. -/
def buyOrder : Order :=
  { status := "PartiallyFilled", type := "buy", amount := token 100, filled := token 40
    price := waves 2 }

/-- A buy order whose amount times price has a ninth decimal: 0.5 of the
asset at a price of 0.00000003 of the native asset. -/
def cutBuyOrder : Order :=
  { status := "Accepted", type := "buy", amount := token (1 / 2), filled := token 0
    price := waves (3 / 100000000) }

/-- An order that is no longer open. -/
def filledOrder : Order :=
  { status := "Filled", type := "sell", amount := token 100, filled := token 100
    price := waves 2 }

/-- The state of a service that has cached nothing and called nothing. -/
def emptyState : Assets.State :=
  { _assets := { lookup := fun _ => none }, registryCalls := [] }

/-! ## The alias form of the account modal -/

/-- A value a field of the controller can hold after `_validateNewAlias`: a
boolean, or the string `newAlias` itself, which `newAlias && ...` yields for
the empty alias. -/
inductive JSValue where
  | boolean (b : Bool)
  | string (s : String)
deriving DecidableEq

namespace JSValue

/-- Truthiness: `true`, and every string but the empty one. -/
def truthy : JSValue → Bool
  | boolean b => b
  | string s => decide (s ≠ "")

/-- The operator `a && b`: `a` when `a` is falsy, else `b`. -/
def and (a b : JSValue) : JSValue := if a.truthy then b else a

/-- The operator `a || b`: `a` when `a` is truthy, else `b`. -/
def or (a b : JSValue) : JSValue := if a.truthy then a else b

end JSValue

namespace AccountInfoCtrl

/-- `MIN_ALIAS_LENGTH`. -/
def MIN_ALIAS_LENGTH : Nat := 4

/-- `MAX_ALIAS_LENGTH`. -/
def MAX_ALIAS_LENGTH : Nat := 30

/-- The character class `[a-z0-9-@_.]` of `ALIAS_PATTERN`: the ranges `a-z`
and `0-9`, and the four characters `-`, `@`, `_` and `.` (the dash after the
range `0-9` stands for itself). -/
def aliasClass (c : Char) : Bool :=
  ('a' ≤ c && c ≤ 'z') || ('0' ≤ c && c ≤ '9') || c = '-' || c = '@' || c = '_' || c = '.'

/-- `ALIAS_PATTERN.test(s)` for `/^[a-z0-9-@_.]*$/`: from the start of the
input, characters of the class up to the end of the input. A character
outside the Basic Multilingual Plane is two code units in the script, both
surrogates and so outside the class, as the character is here. -/
def ALIAS_PATTERN_test (s : String) : Bool := s.toList.all aliasClass

/-- The number of UTF-16 code units of a character. -/
def utf16Units (c : Char) : Nat := if c.toNat < 65536 then 1 else 2

/-- The property `s.length` of a script string: its number of UTF-16 code
units. -/
def jsLength (s : String) : Nat := (s.toList.map utf16Units).sum

/-- The fields of the controller `_validateNewAlias` reads and writes.
`pendingAlias` is not set by the constructor: `none` is `undefined`. -/
structure Ctrl where
  newAlias : String
  noMoneyForFee : Bool
  invalid : JSValue
  invalidMinLength : JSValue
  invalidMaxLength : JSValue
  invalidPattern : JSValue
  invalidExist : Bool
  pendingAlias : Option Bool

/-- The first four assignments of `AccountInfoCtrl._validateNewAlias`: the
state before the alias-existence lookup. -/
def _validateNewAlias_beforeLookup (c : Ctrl) : Ctrl :=
  let invalidMinLength :=
    JSValue.and (.string c.newAlias) (.boolean (decide (jsLength c.newAlias < MIN_ALIAS_LENGTH)))
  let invalidMaxLength :=
    JSValue.and (.string c.newAlias) (.boolean (decide (jsLength c.newAlias > MAX_ALIAS_LENGTH)))
  let invalidPattern :=
    JSValue.and (.string c.newAlias) (.boolean (!ALIAS_PATTERN_test c.newAlias))
  { c with
    invalidMinLength := invalidMinLength
    invalidMaxLength := invalidMaxLength
    invalidPattern := invalidPattern
    invalid :=
      JSValue.or (JSValue.or (JSValue.or (.boolean c.noMoneyForFee) invalidMinLength)
        invalidMaxLength) invalidPattern }

/-- `AccountInfoCtrl._validateNewAlias()` run to its end with no other handler
in between. The lookup `ds.api.aliases.getAddressByAlias` is the parameter
`aliasExists`: `true` when it resolves, `false` when it throws. -/
def _validateNewAlias (aliasExists : String → Bool) (c : Ctrl) : Ctrl :=
  let c1 := _validateNewAlias_beforeLookup c
  if (JSValue.and (.string c1.newAlias) (.boolean (!c1.invalid.truthy))).truthy then
    let invalidExist := aliasExists c1.newAlias
    { c1 with
      pendingAlias := some false
      invalidExist := invalidExist
      invalid := JSValue.or c1.invalid (.boolean invalidExist) }
  else
    c1

/-- The controller as its constructor leaves it, with the given alias typed
in and the given fee flag. -/
def withAlias (newAlias : String) (noMoneyForFee : Bool) : Ctrl :=
  { newAlias := newAlias, noMoneyForFee := noMoneyForFee
    invalid := .boolean false, invalidMinLength := .boolean false
    invalidMaxLength := .boolean false, invalidPattern := .boolean false
    invalidExist := false, pendingAlias := none }

end AccountInfoCtrl

/-! ## Theorems -/

open Assets

/-! ### Helper lemmas: the closed form of `_getMoneySub` -/

@[simp] theorem Money.cloneWithCoins_zero (m : Money) :
    m.cloneWithCoins 0 = { asset := m.asset, tokens := 0 } := by
  simp [Money.cloneWithCoins]

theorem foldlM_sub_eq (l : List Money) (m : Money) :
    l.foldlM (fun result toSub => result.sub toSub) m =
      if ∀ s ∈ l, s.asset.id = m.asset.id then
        .ok { asset := m.asset, tokens := m.tokens - (l.map Money.tokens).sum }
      else .error Failure.AssetMismatch := by
  induction l generalizing m with
  | nil => simp [pure, Except.pure]
  | cons s t ih =>
    rw [List.foldlM_cons]
    by_cases h : m.asset.id = s.asset.id
    · have hs : m.sub s = .ok { asset := m.asset, tokens := m.tokens - s.tokens } := by
        simp [Money.sub, h]
      rw [hs]
      show List.foldlM _ _ t = _
      rw [ih]
      simp [h, sub_sub]
    · have hs : m.sub s = .error Failure.AssetMismatch := by
        simp [Money.sub, h]
      have h2 : ¬ s.asset.id = m.asset.id := fun e => h e.symm
      rw [hs]
      simp [h2, bind, Except.bind]

theorem getMoneySub_eq (m : Money) (l : List Money) :
    _getMoneySub m l =
      if ∀ s ∈ l, s.asset.id = m.asset.id then
        .ok { asset := m.asset, tokens := max 0 (m.tokens - (l.map Money.tokens).sum) }
      else .error Failure.AssetMismatch := by
  unfold _getMoneySub
  rw [foldlM_sub_eq]
  split_ifs with h
  · simp only [Money.getTokens]
    split_ifs with h2
    · simp [Money.cloneWithCoins_zero, max_eq_left h2.le]
    · simp [max_eq_right (not_lt.mp h2)]
  · rfl

theorem subClamped_eq (m s : Money) :
    subClamped m s =
      if m.asset.id = s.asset.id then
        .ok { asset := m.asset, tokens := max 0 (m.tokens - s.tokens) }
      else .error Failure.AssetMismatch := by
  unfold subClamped Money.sub
  split_ifs with h
  · simp only [Money.getTokens]
    split_ifs with h2
    · simp [max_eq_left h2.le]
    · simp [max_eq_right (not_lt.mp h2)]
  · rfl

theorem getMoneySubEachClamped_cons (m s : Money) (t : List Money) :
    getMoneySubEachClamped m (s :: t) =
      if m.asset.id = s.asset.id then
        getMoneySubEachClamped { asset := m.asset, tokens := max 0 (m.tokens - s.tokens) } t
      else .error Failure.AssetMismatch := by
  unfold getMoneySubEachClamped
  rw [List.foldlM_cons, subClamped_eq]
  split_ifs with h
  · rfl
  · rfl

theorem getMoneySub_cons (m s : Money) (t : List Money) :
    _getMoneySub m (s :: t) =
      if m.asset.id = s.asset.id then
        _getMoneySub { asset := m.asset, tokens := m.tokens - s.tokens } t
      else .error Failure.AssetMismatch := by
  rw [getMoneySub_eq, getMoneySub_eq]
  by_cases h : m.asset.id = s.asset.id
  · simp only [h, if_true]
    by_cases h2 : ∀ x ∈ t, x.asset.id = s.asset.id
    · simp [h2, sub_sub]
    · simp [h2]
  · have h3 : ¬ s.asset.id = m.asset.id := fun e => h e.symm
    simp [h, h3]

/-- Once the running result is not positive, non-negative amounts keep the
final clamp at zero. -/
theorem getMoneySub_of_nonpos (m : Money) (l : List Money)
    (hl : ∀ s ∈ l, 0 ≤ s.tokens) (hm : m.tokens ≤ 0) :
    _getMoneySub m l = _getMoneySub { asset := m.asset, tokens := 0 } l := by
  rw [getMoneySub_eq, getMoneySub_eq]
  have hsum : 0 ≤ (l.map Money.tokens).sum := by
    apply List.sum_nonneg
    intro x hx
    rcases List.mem_map.mp hx with ⟨s, hs, rfl⟩
    exact hl s hs
  have h1 : max 0 (m.tokens - (l.map Money.tokens).sum) = 0 := max_eq_left (by linarith)
  have h2 : max 0 (0 - (l.map Money.tokens).sum) = 0 := max_eq_left (by linarith)
  simp only [h1, h2]

/-! ### Helper lemmas: `groupMoney`, `mapThrowing`, the rows -/

theorem groupMoney_asset_id (l : List Money) (id : String) (m : Money)
    (h : groupMoney l id = some m) : m.asset.id = id := by
  unfold groupMoney at h
  split at h
  · exact absurd h (by simp)
  · next x xs hf =>
    have hx : x ∈ l.filter (fun m => m.asset.id = id) := by rw [hf]; exact List.mem_cons_self _ _
    have hid : x.asset.id = id := by simpa using (List.mem_filter.mp hx).2
    injection h with h
    rw [← h]
    exact hid

theorem groupMoney_getD_tokens (l : List Money) (id : String) (zero : Money)
    (hz : zero.tokens = 0) : ((groupMoney l id).getD zero).tokens = assetSum l id := by
  unfold groupMoney assetSum
  split
  · next hf => simp [hf, hz]
  · next x xs hf => simp [hf]

theorem groupMoney_getD_asset_id (l : List Money) (id : String) (zero : Money)
    (hz : zero.asset.id = id) : ((groupMoney l id).getD zero).asset.id = id := by
  cases h : groupMoney l id with
  | none => simpa using hz
  | some m => simpa using groupMoney_asset_id l id m h

theorem assetSum_nonneg (l : List Money) (id : String) (hl : ∀ m ∈ l, 0 ≤ m.tokens) :
    0 ≤ assetSum l id := by
  unfold assetSum
  apply List.sum_nonneg
  intro x hx
  rcases List.mem_map.mp hx with ⟨s, hs, rfl⟩
  exact hl s (List.mem_filter.mp hs).1

theorem mapThrowing_ok_iff {α β : Type} (f : α → Except Failure β) (l : List α) (bs : List β) :
    mapThrowing f l = .ok bs ↔ List.Forall₂ (fun a b => f a = .ok b) l bs := by
  induction l generalizing bs with
  | nil =>
    constructor
    · intro h
      simp only [mapThrowing] at h
      injection h with h
      subst h
      exact List.Forall₂.nil
    · intro h
      cases h
      rfl
  | cons a t ih =>
    constructor
    · intro h
      simp only [mapThrowing] at h
      cases hfa : f a with
      | error e => rw [hfa] at h; cases h
      | ok b =>
        rw [hfa] at h
        cases ht : mapThrowing f t with
        | error e => rw [ht] at h; cases h
        | ok bs2 =>
          rw [ht] at h
          injection h with h
          subst h
          exact List.Forall₂.cons hfa ((ih bs2).mp ht)
    · intro h
      cases h with
      | cons hab htl =>
        simp only [mapThrowing, hab, (ih _).mpr htl]

theorem forall₂_mem_right {α β : Type} {R : α → β → Prop} {l : List α} {bs : List β}
    (h : List.Forall₂ R l bs) : ∀ b ∈ bs, ∃ a ∈ l, R a b := by
  induction h with
  | nil => intro b hb; cases hb
  | cons hab _ ih =>
    intro b hb
    rcases List.mem_cons.mp hb with rfl | hb
    · exact ⟨_, List.mem_cons_self _ _, hab⟩
    · obtain ⟨a, ha, hr⟩ := ih b hb
      exact ⟨a, List.mem_cons_of_mem _ ha, hr⟩

theorem mapThrowing_total {α β : Type} (f : α → Except Failure β) (l : List α)
    (h : ∀ a ∈ l, ∃ b, f a = .ok b) : ∃ bs, mapThrowing f l = .ok bs := by
  induction l with
  | nil => exact ⟨[], rfl⟩
  | cons a t ih =>
    obtain ⟨b, hb⟩ := h a (List.mem_cons_self _ _)
    obtain ⟨bs, hbs⟩ := ih (fun x hx => h x (List.mem_cons_of_mem _ hx))
    exact ⟨b :: bs, by simp only [mapThrowing, hb, hbs]⟩

/-- The row of one asset balance when the two hash entries read for its id
are amounts of that asset. -/
theorem remapAssetsMoney_of_keyed (orderMoneyHash eventsMoneyHash : String → Option Money)
    (money : Money)
    (hO : ∀ m, orderMoneyHash money.asset.id = some m → m.asset.id = money.asset.id)
    (hE : ∀ m, eventsMoneyHash money.asset.id = some m → m.asset.id = money.asset.id) :
    _remapAssetsMoney orderMoneyHash eventsMoneyHash money =
      .ok { asset := money.asset
            regular :=
              { asset := money.asset
                tokens := max 0 (money.tokens -
                  ((eventsMoneyHash money.asset.id).getD { asset := money.asset, tokens := 0 }).tokens) }
            available :=
              { asset := money.asset
                tokens := max 0 (money.tokens -
                  ((eventsMoneyHash money.asset.id).getD { asset := money.asset, tokens := 0 }).tokens -
                  ((orderMoneyHash money.asset.id).getD { asset := money.asset, tokens := 0 }).tokens) }
            inOrders := (orderMoneyHash money.asset.id).getD { asset := money.asset, tokens := 0 }
            leasedOut := { asset := money.asset, tokens := 0 }
            leasedIn := { asset := money.asset, tokens := 0 } } := by
  have hE2 : ((eventsMoneyHash money.asset.id).getD { asset := money.asset, tokens := 0 }).asset.id
      = money.asset.id := by
    cases h : eventsMoneyHash money.asset.id with
    | none => rfl
    | some m => simpa using hE m h
  have hO2 : ((orderMoneyHash money.asset.id).getD { asset := money.asset, tokens := 0 }).asset.id
      = money.asset.id := by
    cases h : orderMoneyHash money.asset.id with
    | none => rfl
    | some m => simpa using hO m h
  unfold _remapAssetsMoney
  simp only [getMoneySub_eq, Money.cloneWithCoins_zero]
  simp [hE2, hO2, sub_sub]

theorem remapAssetsMoney_grouped (orderMoneyList reservedMoneyList : List Money) (money : Money) :
    _remapAssetsMoney (groupMoney orderMoneyList) (groupMoney reservedMoneyList) money =
      .ok { asset := money.asset
            regular :=
              { asset := money.asset
                tokens := max 0 (money.tokens - assetSum reservedMoneyList money.asset.id) }
            available :=
              { asset := money.asset
                tokens := max 0 (money.tokens - assetSum reservedMoneyList money.asset.id -
                  assetSum orderMoneyList money.asset.id) }
            inOrders :=
              (groupMoney orderMoneyList money.asset.id).getD { asset := money.asset, tokens := 0 }
            leasedOut := { asset := money.asset, tokens := 0 }
            leasedIn := { asset := money.asset, tokens := 0 } } := by
  rw [remapAssetsMoney_of_keyed _ _ money (fun m h => groupMoney_asset_id _ _ m h)
    (fun m h => groupMoney_asset_id _ _ m h)]
  rw [groupMoney_getD_tokens _ _ _ rfl, groupMoney_getD_tokens _ _ _ rfl]

/-- What a successful `_remapBalance` returns: the native row, then the rows
of the entries of `moneyList` after the first. -/
theorem remapBalance_ok (WAVES : String) (reservedMoneyList : List Money)
    (wavesDetails : WavesDetails) (moneyList orderMoneyList : List Money)
    (rows : List IBalanceDetails)
    (h : _remapBalance WAVES reservedMoneyList wavesDetails moneyList orderMoneyList = .ok rows) :
    ∃ rest,
      rows =
        { asset := wavesDetails.wavesBalance.regular.asset
          regular :=
            { asset := wavesDetails.wavesBalance.regular.asset
              tokens := max 0 (wavesDetails.wavesBalance.regular.tokens -
                assetSum reservedMoneyList WAVES) }
          available :=
            { asset := wavesDetails.wavesBalance.available.asset
              tokens := max 0 (wavesDetails.wavesBalance.available.tokens -
                assetSum reservedMoneyList WAVES - assetSum orderMoneyList WAVES) }
          inOrders := (groupMoney orderMoneyList WAVES).getD
            { asset := wavesDetails.wavesBalance.regular.asset, tokens := 0 }
          leasedOut := wavesDetails.wavesBalance.leasedOut
          leasedIn := wavesDetails.wavesBalance.leasedIn } :: rest ∧
      List.Forall₂
        (fun money row =>
          _remapAssetsMoney (groupMoney orderMoneyList) (groupMoney reservedMoneyList) money
            = .ok row)
        (moneyList.drop 1) rest := by
  unfold _remapBalance at h
  simp only [getMoneySub_eq, Money.cloneWithCoins_zero] at h
  split at h
  · cases h
  · next regular hreg =>
    split at h
    · cases h
    · next available hav =>
      split at h
      · cases h
      · next rest hrest =>
        refine ⟨rest, ?_, (mapThrowing_ok_iff _ _ _).mp hrest⟩
        injection h with h
        rw [← h]
        split_ifs at hreg with c1
        split_ifs at hav with c2
        injection hreg with hreg
        injection hav with hav
        rw [← hreg, ← hav]
        have t1 := groupMoney_getD_tokens reservedMoneyList WAVES
          { asset := wavesDetails.wavesBalance.regular.asset, tokens := 0 } rfl
        have t2 := groupMoney_getD_tokens orderMoneyList WAVES
          { asset := wavesDetails.wavesBalance.regular.asset, tokens := 0 } rfl
        simp [t1, t2, sub_sub]

/-- `_remapBalance` returns when the node's regular and available balances
are amounts of the native asset. -/
theorem remapBalance_total (WAVES : String) (reservedMoneyList : List Money)
    (wavesDetails : WavesDetails) (moneyList orderMoneyList : List Money)
    (hR : wavesDetails.wavesBalance.regular.asset.id = WAVES)
    (hA : wavesDetails.wavesBalance.available.asset.id = WAVES) :
    ∃ rows,
      _remapBalance WAVES reservedMoneyList wavesDetails moneyList orderMoneyList = .ok rows := by
  have e1 := groupMoney_getD_asset_id reservedMoneyList WAVES
    { asset := wavesDetails.wavesBalance.regular.asset, tokens := 0 } hR
  have e2 := groupMoney_getD_asset_id orderMoneyList WAVES
    { asset := wavesDetails.wavesBalance.regular.asset, tokens := 0 } hR
  obtain ⟨rest, hrest⟩ := mapThrowing_total
    (_remapAssetsMoney (groupMoney orderMoneyList) (groupMoney reservedMoneyList))
    (moneyList.drop 1) (fun money _ => ⟨_, remapAssetsMoney_grouped _ _ money⟩)
  unfold _remapBalance
  simp only [getMoneySub_eq, Money.cloneWithCoins_zero, hrest]
  simp [e1, e2, hR, hA]

/-! ### C1: no negative amount in a row -/

/-- C1 (as amended): in every row `_remapBalance` returns, `regular` and
`available` are non-negative for any input, reserved or order amounts
exceeding the balance included; `inOrders`, `leasedOut` and `leasedIn` are
non-negative when no order amount is negative and the node's `leasedOut` and
`leasedIn` are not negative. -/
theorem C1_rows_nonneg (WAVES : String) (reservedMoneyList : List Money)
    (wavesDetails : WavesDetails) (moneyList orderMoneyList : List Money)
    (rows : List IBalanceDetails)
    (h : _remapBalance WAVES reservedMoneyList wavesDetails moneyList orderMoneyList = .ok rows) :
    (∀ row ∈ rows, 0 ≤ row.regular.tokens ∧ 0 ≤ row.available.tokens) ∧
    ((∀ m ∈ orderMoneyList, 0 ≤ m.tokens) →
      0 ≤ wavesDetails.wavesBalance.leasedOut.tokens →
      0 ≤ wavesDetails.wavesBalance.leasedIn.tokens →
      ∀ row ∈ rows,
        0 ≤ row.inOrders.tokens ∧ 0 ≤ row.leasedOut.tokens ∧ 0 ≤ row.leasedIn.tokens) := by
  obtain ⟨rest, hrows, hrest⟩ := remapBalance_ok _ _ _ _ _ _ h
  have hmem : ∀ row ∈ rest, ∃ money,
      _remapAssetsMoney (groupMoney orderMoneyList) (groupMoney reservedMoneyList) money
        = .ok row := by
    intro row hrow
    obtain ⟨money, _, hm⟩ := forall₂_mem_right hrest row hrow
    exact ⟨money, hm⟩
  subst hrows
  constructor
  · intro row hrow
    rcases List.mem_cons.mp hrow with rfl | hrow
    · exact ⟨le_max_left _ _, le_max_left _ _⟩
    · obtain ⟨money, hm⟩ := hmem row hrow
      rw [remapAssetsMoney_grouped] at hm
      injection hm with hm
      subst hm
      exact ⟨le_max_left _ _, le_max_left _ _⟩
  · intro hord hout hin row hrow
    rcases List.mem_cons.mp hrow with rfl | hrow
    · refine ⟨?_, hout, hin⟩
      show 0 ≤ ((groupMoney orderMoneyList WAVES).getD _).tokens
      rw [groupMoney_getD_tokens _ _ _ rfl]
      exact assetSum_nonneg _ _ hord
    · obtain ⟨money, hm⟩ := hmem row hrow
      rw [remapAssetsMoney_grouped] at hm
      injection hm with hm
      subst hm
      refine ⟨?_, le_rfl, le_rfl⟩
      show 0 ≤ ((groupMoney orderMoneyList money.asset.id).getD _).tokens
      rw [groupMoney_getD_tokens _ _ _ rfl]
      exact assetSum_nonneg _ _ hord

/-- C1, witness: reserved 500 and orders 20 against a native balance of 100,
orders 9 against 7 of another asset; every field of both rows is
non-negative. -/
theorem C1_rows_nonneg_witness :
    _remapBalance "WAVES" [waves 500] exampleDetails [waves 100, token 7] [waves 20, token 9] =
      .ok [ { asset := wavesAsset, regular := waves 0, available := waves 0
              inOrders := waves 20, leasedOut := waves 5, leasedIn := waves 0 },
            { asset := tokenAsset, regular := token 7, available := token 0
              inOrders := token 9, leasedOut := token 0, leasedIn := token 0 } ] ∧
    ∀ row ∈ [ ({ asset := wavesAsset, regular := waves 0, available := waves 0
                 inOrders := waves 20, leasedOut := waves 5, leasedIn := waves 0 } :
                  IBalanceDetails),
              { asset := tokenAsset, regular := token 7, available := token 0
                inOrders := token 9, leasedOut := token 0, leasedIn := token 0 } ],
      (0 ≤ row.regular.tokens ∧ 0 ≤ row.available.tokens) ∧
      0 ≤ row.inOrders.tokens ∧ 0 ≤ row.leasedOut.tokens ∧ 0 ≤ row.leasedIn.tokens := by
  have h : _remapBalance "WAVES" [waves 500] exampleDetails [waves 100, token 7]
      [waves 20, token 9] =
      .ok [ { asset := wavesAsset, regular := waves 0, available := waves 0
              inOrders := waves 20, leasedOut := waves 5, leasedIn := waves 0 },
            { asset := tokenAsset, regular := token 7, available := token 0
              inOrders := token 9, leasedOut := token 0, leasedIn := token 0 } ] := by
    simp [_remapBalance, getMoneySub_eq, mapThrowing, remapAssetsMoney_grouped, groupMoney,
      assetSum, exampleDetails, waves, token, wavesAsset, tokenAsset]
    norm_num
  have hord : ∀ m ∈ [waves 20, token 9], 0 ≤ m.tokens := by simp [waves, token]
  have hout : 0 ≤ exampleDetails.wavesBalance.leasedOut.tokens := by
    simp [exampleDetails, waves]
  have hin : 0 ≤ exampleDetails.wavesBalance.leasedIn.tokens := by
    simp [exampleDetails, waves]
  have key := C1_rows_nonneg "WAVES" [waves 500] exampleDetails [waves 100, token 7]
    [waves 20, token 9] _ h
  exact ⟨h, fun row hrow => ⟨key.1 row hrow, key.2 hord hout hin row hrow⟩⟩

/-- C1, counterexample: an order amount of -3 of an asset held with 7 comes
back as `inOrders` -3 in the row of that asset. -/
theorem C1_negative_inOrders_counterexample :
    _remapBalance "WAVES" [] exampleDetails [waves 100, token 7] [token (-3)] =
      .ok [ { asset := wavesAsset, regular := waves 100, available := waves 90
              inOrders := waves 0, leasedOut := waves 5, leasedIn := waves 0 },
            { asset := tokenAsset, regular := token 7, available := token 10
              inOrders := token (-3), leasedOut := token 0, leasedIn := token 0 } ] ∧
    (token (-3)).tokens < 0 := by
  constructor
  · simp [_remapBalance, getMoneySub_eq, mapThrowing, remapAssetsMoney_grouped, groupMoney,
      assetSum, exampleDetails, waves, token, wavesAsset, tokenAsset]
    norm_num
  · simp [token]

/-! ### C2: the native row -/

/-- C2: when the node's regular and available balances are amounts of the
native asset, `_remapBalance` returns, and its first row has regular =
max(0, nodeRegular - reservedNative), available = max(0, nodeAvailable -
reservedNative - orderNative), inOrders = orderNative in the native asset,
and the node's leasedOut and leasedIn unchanged, where reservedNative and
orderNative are the sums of the reserved list and of the order list for the
native asset. -/
theorem C2_native_row (WAVES : String) (reservedMoneyList : List Money)
    (wavesDetails : WavesDetails) (moneyList orderMoneyList : List Money)
    (hR : wavesDetails.wavesBalance.regular.asset.id = WAVES)
    (hA : wavesDetails.wavesBalance.available.asset.id = WAVES) :
    ∃ row rest,
      _remapBalance WAVES reservedMoneyList wavesDetails moneyList orderMoneyList
        = .ok (row :: rest) ∧
      row.asset = wavesDetails.wavesBalance.regular.asset ∧
      row.regular =
        { asset := wavesDetails.wavesBalance.regular.asset
          tokens := max 0 (wavesDetails.wavesBalance.regular.tokens -
            assetSum reservedMoneyList WAVES) } ∧
      row.available =
        { asset := wavesDetails.wavesBalance.available.asset
          tokens := max 0 (wavesDetails.wavesBalance.available.tokens -
            assetSum reservedMoneyList WAVES - assetSum orderMoneyList WAVES) } ∧
      row.inOrders.tokens = assetSum orderMoneyList WAVES ∧
      row.inOrders.asset.id = WAVES ∧
      row.leasedOut = wavesDetails.wavesBalance.leasedOut ∧
      row.leasedIn = wavesDetails.wavesBalance.leasedIn := by
  obtain ⟨rows, hrows⟩ := remapBalance_total WAVES reservedMoneyList wavesDetails moneyList
    orderMoneyList hR hA
  obtain ⟨rest, hshape, _⟩ := remapBalance_ok _ _ _ _ _ _ hrows
  refine ⟨_, rest, hshape ▸ hrows, rfl, rfl, rfl, ?_, ?_, rfl, rfl⟩
  · exact groupMoney_getD_tokens _ _ _ rfl
  · exact groupMoney_getD_asset_id _ _ _ hR

/-- C2, witness: the spec's example. Regular 100, available 90, leased out 5,
leased in 0, reserved 10 and orders 20 give regular 90, available 60,
in orders 20, leased out 5, leased in 0. -/
theorem C2_native_row_witness :
    exampleDetails.wavesBalance.regular.asset.id = "WAVES" ∧
    exampleDetails.wavesBalance.available.asset.id = "WAVES" ∧
    ∃ row rest,
      _remapBalance "WAVES" [waves 10] exampleDetails [] [waves 20] = .ok (row :: rest) ∧
      row.regular = waves 90 ∧ row.available = waves 60 ∧ row.inOrders.tokens = 20 ∧
      row.leasedOut = waves 5 ∧ row.leasedIn = waves 0 := by
  refine ⟨rfl, rfl, ?_⟩
  obtain ⟨row, rest, h, _, hreg, hav, hord, _, hout, hin⟩ :=
    C2_native_row "WAVES" [waves 10] exampleDetails [] [waves 20] rfl rfl
  have s1 : assetSum [waves 10] "WAVES" = 10 := by simp [assetSum, waves, wavesAsset]
  have s2 : assetSum [waves 20] "WAVES" = 20 := by simp [assetSum, waves, wavesAsset]
  refine ⟨row, rest, h, ?_, ?_, ?_, hout, hin⟩
  · rw [hreg, s1]
    simp [exampleDetails, waves]
    norm_num
  · rw [hav, s1, s2]
    simp [exampleDetails, waves]
    norm_num
  · rw [hord, s2]

/-! ### C3: the row of another asset -/

/-- C3: for per-asset maps, whose entry read under the id of `money` is an
amount of that asset, `_remapAssetsMoney` returns the row with asset =
money.asset, regular = max(0, balance - reserved), available = max(0,
balance - reserved - inOrders), inOrders = the order entry, leasedOut =
leasedIn = zero of the asset; a missing entry counts as zero of the asset,
and both entries are subtracted in `available`. -/
theorem C3_asset_row (orderMoneyHash eventsMoneyHash : String → Option Money) (money : Money)
    (hO : ∀ m, orderMoneyHash money.asset.id = some m → m.asset.id = money.asset.id)
    (hE : ∀ m, eventsMoneyHash money.asset.id = some m → m.asset.id = money.asset.id) :
    _remapAssetsMoney orderMoneyHash eventsMoneyHash money =
      .ok { asset := money.asset
            regular :=
              { asset := money.asset
                tokens := max 0 (money.tokens -
                  ((eventsMoneyHash money.asset.id).getD { asset := money.asset, tokens := 0 }).tokens) }
            available :=
              { asset := money.asset
                tokens := max 0 (money.tokens -
                  ((eventsMoneyHash money.asset.id).getD { asset := money.asset, tokens := 0 }).tokens -
                  ((orderMoneyHash money.asset.id).getD { asset := money.asset, tokens := 0 }).tokens) }
            inOrders := (orderMoneyHash money.asset.id).getD { asset := money.asset, tokens := 0 }
            leasedOut := { asset := money.asset, tokens := 0 }
            leasedIn := { asset := money.asset, tokens := 0 } } := by
  have hE2 : ((eventsMoneyHash money.asset.id).getD { asset := money.asset, tokens := 0 }).asset.id
      = money.asset.id := by
    cases h : eventsMoneyHash money.asset.id with
    | none => rfl
    | some m => simpa using hE m h
  have hO2 : ((orderMoneyHash money.asset.id).getD { asset := money.asset, tokens := 0 }).asset.id
      = money.asset.id := by
    cases h : orderMoneyHash money.asset.id with
    | none => rfl
    | some m => simpa using hO m h
  unfold _remapAssetsMoney
  simp only [getMoneySub_eq, Money.cloneWithCoins_zero]
  simp [hE2, hO2, sub_sub]

/-- C3, witness: a balance of 20 with 5 reserved and 9 in orders gives
regular 15 and available 6: both amounts are subtracted. -/
theorem C3_asset_row_witness :
    (∀ m, groupMoney [token 9] (token 20).asset.id = some m →
      m.asset.id = (token 20).asset.id) ∧
    (∀ m, groupMoney [token 5] (token 20).asset.id = some m →
      m.asset.id = (token 20).asset.id) ∧
    _remapAssetsMoney (groupMoney [token 9]) (groupMoney [token 5]) (token 20) =
      .ok { asset := tokenAsset, regular := token 15, available := token 6
            inOrders := token 9, leasedOut := token 0, leasedIn := token 0 } := by
  have hO : ∀ m, groupMoney [token 9] (token 20).asset.id = some m →
      m.asset.id = (token 20).asset.id := fun m h => groupMoney_asset_id _ _ m h
  have hE : ∀ m, groupMoney [token 5] (token 20).asset.id = some m →
      m.asset.id = (token 20).asset.id := fun m h => groupMoney_asset_id _ _ m h
  refine ⟨hO, hE, ?_⟩
  rw [C3_asset_row (groupMoney [token 9]) (groupMoney [token 5]) (token 20) hO hE]
  simp [groupMoney, token, tokenAsset]
  norm_num

/-! ### C4: available against regular -/

/-- C4 (as amended): when no order amount is negative and the node's
available balance does not exceed its regular balance, every row
`_remapBalance` returns has available ≤ regular. -/
theorem C4_available_le_regular (WAVES : String) (reservedMoneyList : List Money)
    (wavesDetails : WavesDetails) (moneyList orderMoneyList : List Money)
    (rows : List IBalanceDetails)
    (h : _remapBalance WAVES reservedMoneyList wavesDetails moneyList orderMoneyList = .ok rows)
    (hord : ∀ m ∈ orderMoneyList, 0 ≤ m.tokens)
    (hnode : wavesDetails.wavesBalance.available.tokens ≤
      wavesDetails.wavesBalance.regular.tokens) :
    ∀ row ∈ rows, row.available.tokens ≤ row.regular.tokens := by
  obtain ⟨rest, hrows, hrest⟩ := remapBalance_ok _ _ _ _ _ _ h
  subst hrows
  intro row hrow
  rcases List.mem_cons.mp hrow with rfl | hrow
  · have ho := assetSum_nonneg orderMoneyList WAVES hord
    exact max_le_max le_rfl (by linarith)
  · obtain ⟨money, _, hm⟩ := forall₂_mem_right hrest row hrow
    rw [remapAssetsMoney_grouped] at hm
    injection hm with hm
    subst hm
    have ho := assetSum_nonneg orderMoneyList money.asset.id hord
    exact max_le_max le_rfl (by linarith)

/-- C4, witness: the rows of the C1 example, where `available` is 0 in
both. -/
theorem C4_available_le_regular_witness :
    (∀ m ∈ [waves 20, token 9], 0 ≤ m.tokens) ∧
    exampleDetails.wavesBalance.available.tokens ≤ exampleDetails.wavesBalance.regular.tokens ∧
    _remapBalance "WAVES" [waves 500] exampleDetails [waves 100, token 7] [waves 20, token 9] =
      .ok [ { asset := wavesAsset, regular := waves 0, available := waves 0
              inOrders := waves 20, leasedOut := waves 5, leasedIn := waves 0 },
            { asset := tokenAsset, regular := token 7, available := token 0
              inOrders := token 9, leasedOut := token 0, leasedIn := token 0 } ] ∧
    ∀ row ∈ [ ({ asset := wavesAsset, regular := waves 0, available := waves 0
                 inOrders := waves 20, leasedOut := waves 5, leasedIn := waves 0 } :
                  IBalanceDetails),
              { asset := tokenAsset, regular := token 7, available := token 0
                inOrders := token 9, leasedOut := token 0, leasedIn := token 0 } ],
      row.available.tokens ≤ row.regular.tokens := by
  have h : _remapBalance "WAVES" [waves 500] exampleDetails [waves 100, token 7]
      [waves 20, token 9] =
      .ok [ { asset := wavesAsset, regular := waves 0, available := waves 0
              inOrders := waves 20, leasedOut := waves 5, leasedIn := waves 0 },
            { asset := tokenAsset, regular := token 7, available := token 0
              inOrders := token 9, leasedOut := token 0, leasedIn := token 0 } ] := by
    simp [_remapBalance, getMoneySub_eq, mapThrowing, remapAssetsMoney_grouped, groupMoney,
      assetSum, exampleDetails, waves, token, wavesAsset, tokenAsset]
    norm_num
  have hord : ∀ m ∈ [waves 20, token 9], 0 ≤ m.tokens := by simp [waves, token]
  have hnode : exampleDetails.wavesBalance.available.tokens ≤
      exampleDetails.wavesBalance.regular.tokens := by
    simp [exampleDetails, waves]
    norm_num
  exact ⟨hord, hnode, h,
    C4_available_le_regular "WAVES" [waves 500] exampleDetails [waves 100, token 7]
      [waves 20, token 9] _ h hord hnode⟩

/-- C4, counterexample: a node answer with regular 10 and available 20 comes
back as a native row with available 20 above regular 10. -/
theorem C4_available_above_regular_counterexample :
    _remapBalance "WAVES" []
        { wavesBalance := { regular := waves 10, available := waves 20
                            leasedOut := waves 0, leasedIn := waves 0 }
          aliases := [] } [] [] =
      .ok [ { asset := wavesAsset, regular := waves 10, available := waves 20
              inOrders := waves 0, leasedOut := waves 0, leasedIn := waves 0 } ] ∧
    ¬ (waves 20).tokens ≤ (waves 10).tokens := by
  constructor
  · simp [_remapBalance, getMoneySub_eq, mapThrowing, groupMoney, assetSum, waves, wavesAsset]
  · simp [waves]
    norm_num

/-! ### C5: which balances get a row -/

/-- The rows of a successful `_remapBalance` go by position: the native row,
then, in input order, one row for every entry of `moneyList` after the
first, which `slice(1)` skips without looking at its asset. When the first
entry is the native asset's and no later entry is, these are the rows of
exactly the entries whose asset is not the native asset. -/
theorem remapBalance_rows_by_position (WAVES : String) (reservedMoneyList : List Money)
    (wavesDetails : WavesDetails) (moneyList orderMoneyList : List Money)
    (rows : List IBalanceDetails)
    (h : _remapBalance WAVES reservedMoneyList wavesDetails moneyList orderMoneyList = .ok rows) :
    ∃ native rest,
      rows = native :: rest ∧
      native.asset = wavesDetails.wavesBalance.regular.asset ∧
      List.Forall₂
        (fun money row =>
          _remapAssetsMoney (groupMoney orderMoneyList) (groupMoney reservedMoneyList) money
            = .ok row ∧ row.asset = money.asset)
        (moneyList.drop 1) rest ∧
      (∀ first others, moneyList = first :: others → first.asset.id = WAVES →
        (∀ m ∈ others, m.asset.id ≠ WAVES) →
        List.Forall₂
          (fun money row =>
            _remapAssetsMoney (groupMoney orderMoneyList) (groupMoney reservedMoneyList) money
              = .ok row ∧ row.asset = money.asset)
          (moneyList.filter (fun m => decide (m.asset.id ≠ WAVES))) rest) := by
  obtain ⟨rest, hrows, hrest⟩ := remapBalance_ok _ _ _ _ _ _ h
  have hrest2 : List.Forall₂
      (fun money row =>
        _remapAssetsMoney (groupMoney orderMoneyList) (groupMoney reservedMoneyList) money
          = .ok row ∧ row.asset = money.asset)
      (moneyList.drop 1) rest := by
    refine hrest.imp ?_
    intro money row hm
    refine ⟨hm, ?_⟩
    rw [remapAssetsMoney_grouped] at hm
    injection hm with hm
    rw [← hm]
  refine ⟨_, rest, hrows, rfl, hrest2, ?_⟩
  intro first others hml hfirst hothers
  have hfilter : moneyList.filter (fun m => decide (m.asset.id ≠ WAVES)) = moneyList.drop 1 := by
    subst hml
    rw [List.filter_cons_of_neg (by simpa using hfirst)]
    simp only [List.drop_succ_cons, List.drop_zero]
    exact List.filter_eq_self.mpr (fun m hm => by simpa using hothers m hm)
  rw [hfilter]
  exact hrest2

/-- C5 (the code's defect, evaluated): for an account that holds 7 of one
asset other than the native one, the balance list is that one entry, and
`_remapBalance` returns the native row alone: `slice(1)` skips the entry, so
the held asset has no row although its asset is not the native asset. With
the native asset's entry second, the list of 7 of the asset and 100 of the
native asset gives a second row for the native asset and again no row for
the held asset. -/
theorem C5_first_entry_dropped :
    _remapBalance "WAVES" [] exampleDetails [token 7] [] =
      .ok [ { asset := wavesAsset, regular := waves 100, available := waves 90
              inOrders := waves 0, leasedOut := waves 5, leasedIn := waves 0 } ] ∧
    [token 7].filter (fun m => decide (m.asset.id ≠ "WAVES")) = [token 7] ∧
    _remapBalance "WAVES" [] exampleDetails [token 7, waves 100] [] =
      .ok [ { asset := wavesAsset, regular := waves 100, available := waves 90
              inOrders := waves 0, leasedOut := waves 5, leasedIn := waves 0 },
            { asset := wavesAsset, regular := waves 100, available := waves 100
              inOrders := waves 0, leasedOut := waves 0, leasedIn := waves 0 } ] ∧
    [token 7, waves 100].filter (fun m => decide (m.asset.id ≠ "WAVES")) = [token 7] := by
  refine ⟨?_, ?_, ?_, ?_⟩
  · simp [_remapBalance, getMoneySub_eq, mapThrowing, groupMoney, assetSum, exampleDetails,
      waves, wavesAsset]
  · simp [token, tokenAsset]
  · simp [_remapBalance, getMoneySub_eq, mapThrowing, remapAssetsMoney_grouped, groupMoney,
      assetSum, exampleDetails, waves, wavesAsset]
  · simp [token, tokenAsset, waves, wavesAsset]

/-! ### C6: `balanceList` -/

theorem toHash_some {α : Type} (list : List α) (key : α → String) (id : String) (item : α)
    (h : toHash list key id = some item) : item ∈ list ∧ key item = id := by
  unfold toHash at h
  have h1 := List.mem_of_find?_eq_some h
  have h2 := List.find?_some h
  exact ⟨List.mem_reverse.mp h1, by simpa using h2⟩

theorem toHash_none {α : Type} (list : List α) (key : α → String) (id : String)
    (h : toHash list key id = none) : ∀ item ∈ list, key item ≠ id := by
  unfold toHash at h
  intro item hitem
  have := List.find?_eq_none.mp h item (List.mem_reverse.mpr hitem)
  simpa using this

theorem getEmptyBalanceList_ok (registry : String → Option Asset) (idList : List String)
    (hreg : ∀ id ∈ idList, ∃ asset, registry id = some asset ∧ asset.id = id) :
    ∃ monies,
      _getEmptyBalanceList registry idList = .ok monies ∧
      List.Forall₂
        (fun id (money : Money) =>
          ∃ asset, registry id = some asset ∧ asset.id = id ∧
            money = { asset := asset, tokens := 0 })
        idList monies := by
  induction idList with
  | nil => exact ⟨[], rfl, List.Forall₂.nil⟩
  | cons id t ih =>
    obtain ⟨asset, ha, hid⟩ := hreg id (List.mem_cons_self _ _)
    obtain ⟨monies, hm, hrel⟩ := ih (fun x hx => hreg x (List.mem_cons_of_mem _ hx))
    refine ⟨{ asset := asset, tokens := 0 } :: monies, ?_,
      List.Forall₂.cons ⟨asset, ha, hid, rfl⟩ hrel⟩
    have hf : fromCoins registry 0 id = .ok { asset := asset, tokens := 0 } := by
      simp [fromCoins, ha]
    unfold _getEmptyBalanceList at hm ⊢
    simp only [mapThrowing, hf, hm]

/-- C6: when the registry resolves every requested id to a descriptor with
that id, `balanceList` returns a list of the same length and order as the id
list: the entry for an id is an entry of the snapshot with that id if the
snapshot has one, and otherwise the placeholder whose asset is the
registry's descriptor of the id and whose five amounts are all zero. -/
theorem C6_balanceList (registry : String → Option Asset)
    (userBalances : List IBalanceDetails) (assetIdList : List String)
    (hreg : ∀ id ∈ assetIdList, ∃ asset, registry id = some asset ∧ asset.id = id) :
    ∃ result,
      balanceList registry userBalances assetIdList = .ok result ∧
      List.Forall₂
        (fun id (entry : IBalanceDetails) =>
          ((∃ b ∈ userBalances, b.available.asset.id = id) →
            entry ∈ userBalances ∧ entry.available.asset.id = id) ∧
          ((¬ ∃ b ∈ userBalances, b.available.asset.id = id) →
            ∃ asset, registry id = some asset ∧
              entry =
                { asset := asset
                  regular := { asset := asset, tokens := 0 }
                  available := { asset := asset, tokens := 0 }
                  inOrders := { asset := asset, tokens := 0 }
                  leasedOut := { asset := asset, tokens := 0 }
                  leasedIn := { asset := asset, tokens := 0 } }))
        assetIdList result := by
  obtain ⟨monies, hm, hrel⟩ := getEmptyBalanceList_ok registry assetIdList hreg
  unfold balanceList
  rw [hm]
  refine ⟨_, rfl, ?_⟩
  rw [List.forall₂_map_right_iff]
  refine hrel.imp ?_
  rintro id money ⟨asset, ha, hid, rfl⟩
  simp only
  cases hh : toHash userBalances (fun b => b.available.asset.id) asset.id with
  | none =>
    have hnone := toHash_none _ _ _ hh
    constructor
    · rintro ⟨b, hb, hbid⟩
      exact absurd (hbid.trans hid.symm) (hnone b hb)
    · intro _
      exact ⟨asset, ha, rfl⟩
  | some found =>
    have hsome := toHash_some _ _ _ _ hh
    constructor
    · intro _
      exact ⟨hsome.1, hsome.2.trans hid⟩
    · intro hno
      exact absurd ⟨found, hsome.1, hsome.2.trans hid⟩ hno

/-- C6, witness: for an id the snapshot does not hold, `balanceList([id])` is
the single all-zero entry of that asset. -/
theorem C6_balanceList_witness :
    (∀ id ∈ ["TKN"], ∃ asset, sampleRegistry id = some asset ∧ asset.id = id) ∧
    (∃ result,
      balanceList sampleRegistry [] ["TKN"] = .ok result ∧
      List.Forall₂
        (fun id (entry : IBalanceDetails) =>
          ((∃ b ∈ ([] : List IBalanceDetails), b.available.asset.id = id) →
            entry ∈ ([] : List IBalanceDetails) ∧ entry.available.asset.id = id) ∧
          ((¬ ∃ b ∈ ([] : List IBalanceDetails), b.available.asset.id = id) →
            ∃ asset, sampleRegistry id = some asset ∧
              entry =
                { asset := asset
                  regular := { asset := asset, tokens := 0 }
                  available := { asset := asset, tokens := 0 }
                  inOrders := { asset := asset, tokens := 0 }
                  leasedOut := { asset := asset, tokens := 0 }
                  leasedIn := { asset := asset, tokens := 0 } }))
        ["TKN"] result) ∧
    balanceList sampleRegistry [] ["TKN"] =
      .ok [ { asset := tokenAsset, regular := token 0, available := token 0
              inOrders := token 0, leasedOut := token 0, leasedIn := token 0 } ] := by
  have hreg : ∀ id ∈ ["TKN"], ∃ asset, sampleRegistry id = some asset ∧ asset.id = id := by
    intro id hid
    rw [List.mem_singleton] at hid
    subst hid
    exact ⟨tokenAsset, by simp [sampleRegistry], rfl⟩
  refine ⟨hreg, C6_balanceList sampleRegistry [] ["TKN"] hreg, ?_⟩
  simp [balanceList, _getEmptyBalanceList, mapThrowing, fromCoins, sampleRegistry, toHash, token]

/-! ### C7: the amounts locked in open orders -/

theorem truncate_intCast (k : ℤ) : truncate (k : ℚ) = k := by
  unfold truncate
  split_ifs <;> simp

/-- C7 (as amended): for every list of raw orders, whatever
`_getBalanceOrders` returns holds, in order, one entry for exactly the orders
whose status is Accepted or PartiallyFilled: for a sell order amount - filled
in the asset of the amount; for a buy order (amount - filled) in tokens times
the price in tokens, cut toward zero to a whole number of coins of the asset
of the price, and so that product itself whenever it is a whole number of
coins. And it does return when amount and filled of every order are amounts
of one asset. -/
theorem C7_locked_amounts (orders : List Order) :
    (∀ locked, _getBalanceOrders orders = .ok locked →
      List.Forall₂
        (fun (o : Order) (entry : Option Money) =>
          (o.type = "sell" →
            entry = some { asset := o.amount.asset
                           tokens := o.amount.tokens - o.filled.tokens }) ∧
          (o.type = "buy" →
            entry = some
              { asset := o.price.asset
                tokens :=
                  (truncate ((o.amount.tokens - o.filled.tokens) * o.price.tokens *
                    (10 : ℚ) ^ o.price.asset.precision) : ℚ) /
                    (10 : ℚ) ^ o.price.asset.precision }) ∧
          (o.type = "buy" →
            ∀ coins : ℤ,
              (o.amount.tokens - o.filled.tokens) * o.price.tokens *
                (10 : ℚ) ^ o.price.asset.precision = coins →
              entry = some { asset := o.price.asset
                             tokens := (o.amount.tokens - o.filled.tokens) * o.price.tokens }))
        (orders.filter
          (fun o => decide (o.status = "Accepted" ∨ o.status = "PartiallyFilled")))
        locked) ∧
    ((∀ o ∈ orders, o.amount.asset.id = o.filled.asset.id) →
      ∃ locked, _getBalanceOrders orders = .ok locked) := by
  have hfilter : orders.filter _filterOrders =
      orders.filter (fun o => decide (o.status = "Accepted" ∨ o.status = "PartiallyFilled")) := by
    congr 1
    funext o
    simp [_filterOrders]
  constructor
  · intro locked hlocked
    rw [← hfilter]
    refine ((mapThrowing_ok_iff _ _ _).mp hlocked).imp ?_
    intro o entry ho
    unfold _remapOrders at ho
    have hbuy : o.type = "buy" →
        entry = some
          { asset := o.price.asset
            tokens :=
              (truncate ((o.amount.tokens - o.filled.tokens) * o.price.tokens *
                (10 : ℚ) ^ o.price.asset.precision) : ℚ) /
                (10 : ℚ) ^ o.price.asset.precision } := by
      intro hb
      have hs : ¬ o.type = "sell" := by rw [hb]; decide
      by_cases hid : o.amount.asset.id = o.filled.asset.id
      · simp [hs, hb, Money.sub, hid, Money.getTokens, Money.cloneWithTokens,
          Money.cloneWithCoins, Money.tokensToCoins] at ho
        rw [← ho]
      · simp [hs, hb, Money.sub, hid] at ho
    refine ⟨?_, hbuy, ?_⟩
    · intro hs
      by_cases hid : o.amount.asset.id = o.filled.asset.id
      · simp [hs, Money.sub, hid] at ho
        rw [← ho]
      · simp [hs, Money.sub, hid] at ho
    · intro hb coins hcoins
      rw [hbuy hb, hcoins, truncate_intCast, ← hcoins]
      have hpow : (10 : ℚ) ^ o.price.asset.precision ≠ 0 := pow_ne_zero _ (by norm_num)
      rw [mul_div_assoc, div_self hpow, mul_one]
  · intro hwf
    have hone : ∀ o ∈ orders.filter _filterOrders, ∃ entry, _remapOrders o = .ok entry := by
      intro o ho
      have hid := hwf o (List.mem_filter.mp ho).1
      unfold _remapOrders
      by_cases hs : o.type = "sell"
      · simp [hs, Money.sub, hid]
      · by_cases hb : o.type = "buy"
        · simp [hs, hb, Money.sub, hid]
        · simp [hs, hb]
    exact mapThrowing_total _remapOrders _ hone

/-- C7, witness: the spec's examples. The sell order with amount 100 and
filled 30 locks 70 of the sold asset, the buy order with amount 100, filled
40 and price 2 locks 120 of the price asset, and the order with status
Filled locks nothing. -/
theorem C7_locked_amounts_witness :
    (∀ o ∈ [sellOrder, filledOrder, buyOrder], o.amount.asset.id = o.filled.asset.id) ∧
    _getBalanceOrders [sellOrder, filledOrder, buyOrder] =
      .ok [some (token 70), some (waves 120)] ∧
    List.Forall₂
      (fun (o : Order) (entry : Option Money) =>
        (o.type = "sell" →
          entry = some { asset := o.amount.asset
                         tokens := o.amount.tokens - o.filled.tokens }) ∧
        (o.type = "buy" →
          entry = some
            { asset := o.price.asset
              tokens :=
                (truncate ((o.amount.tokens - o.filled.tokens) * o.price.tokens *
                  (10 : ℚ) ^ o.price.asset.precision) : ℚ) /
                  (10 : ℚ) ^ o.price.asset.precision }) ∧
        (o.type = "buy" →
          ∀ coins : ℤ,
            (o.amount.tokens - o.filled.tokens) * o.price.tokens *
              (10 : ℚ) ^ o.price.asset.precision = coins →
            entry = some { asset := o.price.asset
                           tokens := (o.amount.tokens - o.filled.tokens) * o.price.tokens }))
      ([sellOrder, filledOrder, buyOrder].filter
        (fun o => decide (o.status = "Accepted" ∨ o.status = "PartiallyFilled")))
      [some (token 70), some (waves 120)] := by
  have hwf : ∀ o ∈ [sellOrder, filledOrder, buyOrder],
      o.amount.asset.id = o.filled.asset.id := by
    simp [sellOrder, filledOrder, buyOrder, token]
  have key := C7_locked_amounts [sellOrder, filledOrder, buyOrder]
  have heval : _getBalanceOrders [sellOrder, filledOrder, buyOrder] =
      .ok [some (token 70), some (waves 120)] := by
    simp [_getBalanceOrders, _filterOrders, _remapOrders, mapThrowing, Money.sub,
      Money.getTokens, Money.cloneWithTokens, Money.cloneWithCoins, Money.tokensToCoins,
      truncate, sellOrder, filledOrder, buyOrder, token, waves, wavesAsset]
    norm_num
  exact ⟨hwf, heval, key.1 _ heval⟩

/-- C7, counterexample: a buy order for 0.5 of an asset at a price of
0.00000003 of the native asset, which has 8 decimals, locks 0.00000001 and
not the product 0.000000015. -/
theorem C7_buy_amount_cut_counterexample :
    _getBalanceOrders [cutBuyOrder] = .ok [some (waves (1 / 100000000))] ∧
    (cutBuyOrder.amount.tokens - cutBuyOrder.filled.tokens) * cutBuyOrder.price.tokens =
      3 / 200000000 ∧
    some (waves (1 / 100000000)) ≠
      some { asset := cutBuyOrder.price.asset
             tokens := (cutBuyOrder.amount.tokens - cutBuyOrder.filled.tokens) *
               cutBuyOrder.price.tokens } := by
  refine ⟨?_, ?_, ?_⟩
  · simp [_getBalanceOrders, _filterOrders, _remapOrders, mapThrowing, Money.sub,
      Money.getTokens, Money.cloneWithTokens, Money.cloneWithCoins, Money.tokensToCoins,
      truncate, cutBuyOrder, token, waves, wavesAsset]
    norm_num
  · simp [cutBuyOrder, token, waves]
    norm_num
  · simp [cutBuyOrder, token, waves]
    norm_num

/-! ### C8: `info` -/

/-- C8: `info` is cache-through. If the cache holds a descriptor for the id,
`info` returns it and leaves cache and registry log unchanged. Otherwise,
with the registry's descriptor `d` of the id, it returns `d`, logs one
registry call, stores `d` under the id and leaves every other entry
unchanged, and `info` for the same id in the state reached returns `d` again
with that state unchanged: no further registry call. -/
theorem C8_info_cache_through (registry : String → Option Asset) (assetId : String)
    (s : Assets.State) :
    (∀ cached, s._assets.get assetId = some cached →
      info registry assetId s = (.ok cached, s)) ∧
    (∀ d, s._assets.get assetId = none → registry assetId = some d →
      (info registry assetId s).1 = .ok d ∧
      (info registry assetId s).2._assets.get assetId = some d ∧
      (∀ other, other ≠ assetId →
        (info registry assetId s).2._assets.get other = s._assets.get other) ∧
      (info registry assetId s).2.registryCalls = s.registryCalls ++ [assetId] ∧
      info registry assetId (info registry assetId s).2 =
        (.ok d, (info registry assetId s).2)) := by
  constructor
  · intro cached hc
    simp [info, hc]
  · intro d hnone hd
    have hinfo : info registry assetId s =
        (.ok d, { _assets := s._assets.set assetId d
                  registryCalls := s.registryCalls ++ [assetId] }) := by
      simp [info, hnone, hd]
    rw [hinfo]
    refine ⟨rfl, ?_, ?_, rfl, ?_⟩
    · simp [Cache.get, Cache.set]
    · intro other hother
      simp [Cache.get, Cache.set, hother]
    · simp [info, Cache.get, Cache.set]

/-- C8, witness: on the empty cache `info` fetches the descriptor of "TKN"
with one registry call, and asked again answers from the cache. -/
theorem C8_info_cache_through_witness :
    info sampleRegistry "TKN" emptyState =
      (.ok tokenAsset, (info sampleRegistry "TKN" emptyState).2) ∧
    (info sampleRegistry "TKN" emptyState).2.registryCalls = ["TKN"] ∧
    info sampleRegistry "TKN" (info sampleRegistry "TKN" emptyState).2 =
      (.ok tokenAsset, (info sampleRegistry "TKN" emptyState).2) := by
  have hnone : emptyState._assets.get "TKN" = none := rfl
  have hd : sampleRegistry "TKN" = some tokenAsset := by simp [sampleRegistry]
  obtain ⟨h1, _, _, h4, h5⟩ :=
    (C8_info_cache_through sampleRegistry "TKN" emptyState).2 tokenAsset hnone hd
  refine ⟨?_, ?_, h5⟩
  · exact Prod.ext h1 rfl
  · rw [h4]
    rfl

/-! ### C9: the poll cache is single-flight -/

/-- C9: on a poll cache with no fetch in flight and no fresh value, two
`get()` calls issued before the producer's promise resolves invoke the
producer exactly once, and when it resolves with `v` both callers, and only
they, are answered with `v`. -/
theorem C9_single_flight {T : Type} (c : PollCache T) (t1 t2 t3 a b : Nat) (v : T)
    (hidle : c.inFlight = false) (hstale : c.fresh t1 = none) :
    ((c.get t1 a).get t2 b).producerCalls = c.producerCalls + 1 ∧
    (((c.get t1 a).get t2 b).resolve t3 v).producerCalls = c.producerCalls + 1 ∧
    ((c.get t1 a).get t2 b).answers = c.answers ∧
    (((c.get t1 a).get t2 b).resolve t3 v).answers =
      c.answers ++ [(a, .ok v), (b, .ok v)] := by
  simp [PollCache.get, PollCache.resolve, hidle, hstale]

/-- C9, witness: the balance cache the constructor creates, asked twice
before the first fetch resolves. -/
theorem C9_single_flight_witness :
    Assets._balanceCache.inFlight = false ∧
    Assets._balanceCache.fresh 0 = none ∧
    (((Assets._balanceCache.get 0 1).get 5 2).resolve 30 []).producerCalls = 1 ∧
    (((Assets._balanceCache.get 0 1).get 5 2).resolve 30 []).answers =
      [(1, .ok []), (2, .ok [])] := by
  have hidle : Assets._balanceCache.inFlight = false := rfl
  have hstale : Assets._balanceCache.fresh 0 = none := rfl
  obtain ⟨_, h2, _, h4⟩ := C9_single_flight Assets._balanceCache 0 5 30 1 2 [] hidle hstale
  exact ⟨hidle, hstale, h2, h4⟩

/-! ### C10: the clamp of `_getMoneySub` -/

/-- C10 (as amended): when no amount to subtract is negative, and the money
itself is not negative or there is at least one amount, `_getMoneySub` (one
clamp, after the last subtraction) returns what subtracting the amounts one
at a time with a clamp after each subtraction returns, failures included. -/
theorem C10_getMoneySub_eq_eachClamped (money : Money) (toSubMoneyList : List Money)
    (hl : ∀ s ∈ toSubMoneyList, 0 ≤ s.tokens)
    (hm : 0 ≤ money.tokens ∨ toSubMoneyList ≠ []) :
    _getMoneySub money toSubMoneyList = getMoneySubEachClamped money toSubMoneyList := by
  induction toSubMoneyList generalizing money with
  | nil =>
    rcases hm with hm | hm
    · rw [getMoneySub_eq]
      simp [getMoneySubEachClamped, pure, Except.pure, max_eq_right hm]
    · exact absurd rfl hm
  | cons s t ih =>
    have ht : ∀ x ∈ t, 0 ≤ x.tokens := fun x hx => hl x (List.mem_cons_of_mem _ hx)
    rw [getMoneySub_cons, getMoneySubEachClamped_cons]
    split_ifs with h
    · by_cases hneg : money.tokens - s.tokens ≤ 0
      · rw [getMoneySub_of_nonpos _ t ht hneg, max_eq_left hneg]
        exact ih _ ht (Or.inl le_rfl)
      · have hpos : 0 ≤ money.tokens - s.tokens := le_of_lt (not_le.mp hneg)
        rw [max_eq_right hpos]
        exact ih _ ht (Or.inl hpos)
    · rfl

/-- C10, witness: 5 minus 10 minus 7 is clamped to zero either way. -/
theorem C10_getMoneySub_eq_eachClamped_witness :
    (∀ s ∈ [waves 10, waves 7], 0 ≤ s.tokens) ∧
    ((0 : ℚ) ≤ (waves 5).tokens ∨ [waves 10, waves 7] ≠ []) ∧
    _getMoneySub (waves 5) [waves 10, waves 7] =
      getMoneySubEachClamped (waves 5) [waves 10, waves 7] :=
  have hl : ∀ s ∈ [waves 10, waves 7], 0 ≤ s.tokens := by simp [waves]
  have hm : (0 : ℚ) ≤ (waves 5).tokens ∨ [waves 10, waves 7] ≠ [] := Or.inr (by simp)
  ⟨hl, hm, C10_getMoneySub_eq_eachClamped (waves 5) [waves 10, waves 7] hl hm⟩

/-- C10, counterexample: from 5, subtracting 10 and then -7, the code clamps
once at the end and returns 2, while a clamp after each subtraction
returns 7. -/
theorem C10_clamp_once_counterexample :
    _getMoneySub (waves 5) [waves 10, waves (-7)] = .ok (waves 2) ∧
    getMoneySubEachClamped (waves 5) [waves 10, waves (-7)] = .ok (waves 7) ∧
    _getMoneySub (waves 5) [waves 10, waves (-7)] ≠
      getMoneySubEachClamped (waves 5) [waves 10, waves (-7)] := by
  have h1 : _getMoneySub (waves 5) [waves 10, waves (-7)] = .ok (waves 2) := by
    rw [getMoneySub_eq]
    simp [waves]
    norm_num
  have h2 : getMoneySubEachClamped (waves 5) [waves 10, waves (-7)] = .ok (waves 7) := by
    rw [getMoneySubEachClamped_cons, getMoneySubEachClamped_cons]
    simp [getMoneySubEachClamped, waves, pure, Except.pure]
    norm_num
  refine ⟨h1, h2, ?_⟩
  rw [h1, h2]
  simp [waves]

/-! ### C11: the alias form -/

theorem aliasClass_iff (c : Char) :
    AccountInfoCtrl.aliasClass c = true ↔
      (('a' ≤ c ∧ c ≤ 'z') ∨ ('0' ≤ c ∧ c ≤ '9') ∨ c = '-' ∨ c = '@' ∨ c = '_' ∨ c = '.') := by
  simp [AccountInfoCtrl.aliasClass, or_assoc]

theorem utf16Units_of_aliasClass (c : Char) (h : AccountInfoCtrl.aliasClass c = true) :
    AccountInfoCtrl.utf16Units c = 1 := by
  have hlt : c.toNat < 65536 := by
    rcases (aliasClass_iff c).mp h with h | h | h | h | h | h
    · have h2 : c.toNat ≤ 122 := h.2
      omega
    · have h2 : c.toNat ≤ 57 := h.2
      omega
    · subst h; decide
    · subst h; decide
    · subst h; decide
    · subst h; decide
  simp [AccountInfoCtrl.utf16Units, hlt]

theorem jsLength_of_aliasClass (s : String)
    (h : AccountInfoCtrl.ALIAS_PATTERN_test s = true) :
    AccountInfoCtrl.jsLength s = s.length := by
  unfold AccountInfoCtrl.ALIAS_PATTERN_test at h
  unfold AccountInfoCtrl.jsLength
  have hlen : s.length = s.toList.length := rfl
  rw [hlen]
  generalize s.toList = l at h ⊢
  induction l with
  | nil => rfl
  | cons c t ih =>
    rw [List.all_cons, Bool.and_eq_true] at h
    rw [List.map_cons, List.sum_cons, ih h.2, utf16Units_of_aliasClass c h.1, List.length_cons]
    omega

theorem and_string_of_ne (s : String) (b : Bool) (h : s ≠ "") :
    JSValue.and (.string s) (.boolean b) = .boolean b := by
  simp [JSValue.and, JSValue.truthy, h]

theorem test_eq_false_iff (s : String) :
    AccountInfoCtrl.ALIAS_PATTERN_test s = false ↔
      ∃ ch ∈ s.toList,
        ¬ (('a' ≤ ch ∧ ch ≤ 'z') ∨ ('0' ≤ ch ∧ ch ≤ '9') ∨
            ch = '-' ∨ ch = '@' ∨ ch = '_' ∨ ch = '.') := by
  constructor
  · intro htest
    by_contra hno
    have hall : s.toList.all AccountInfoCtrl.aliasClass = true := by
      rw [List.all_eq_true]
      intro ch hch
      by_contra hc
      exact hno ⟨ch, hch, fun hgood => hc ((aliasClass_iff ch).mpr hgood)⟩
    rw [AccountInfoCtrl.ALIAS_PATTERN_test, hall] at htest
    cases htest
  · rintro ⟨ch, hch, hbad⟩
    cases htest : AccountInfoCtrl.ALIAS_PATTERN_test s with
    | false => rfl
    | true =>
      have hall : ∀ x ∈ s.toList, AccountInfoCtrl.aliasClass x = true := by
        simpa [AccountInfoCtrl.ALIAS_PATTERN_test] using htest
      exact absurd ((aliasClass_iff ch).mp (hall ch hch)) hbad

/-- C11: in the state `_validateNewAlias` reaches before the alias-existence
lookup: for a non-empty alias and `noMoneyForFee` false, `invalid` is truthy
if and only if the alias is shorter than 4 characters, longer than 30
characters, or holds a character other than a-z, 0-9, '-', '@', '_' and
'.', the length counted in characters or, as the script counts it, in UTF-16
code units; for the empty alias none of `invalidMinLength`,
`invalidMaxLength` and `invalidPattern` is truthy; and with `noMoneyForFee`
true `invalid` is `true` for every alias. -/
theorem C11_validateNewAlias (c : AccountInfoCtrl.Ctrl) :
    (c.newAlias ≠ "" → c.noMoneyForFee = false →
      ((AccountInfoCtrl._validateNewAlias_beforeLookup c).invalid.truthy = true ↔
        (c.newAlias.length < 4 ∨ 30 < c.newAlias.length ∨
          ∃ ch ∈ c.newAlias.toList,
            ¬ (('a' ≤ ch ∧ ch ≤ 'z') ∨ ('0' ≤ ch ∧ ch ≤ '9') ∨
                ch = '-' ∨ ch = '@' ∨ ch = '_' ∨ ch = '.'))) ∧
      ((AccountInfoCtrl._validateNewAlias_beforeLookup c).invalid.truthy = true ↔
        (AccountInfoCtrl.jsLength c.newAlias < 4 ∨ 30 < AccountInfoCtrl.jsLength c.newAlias ∨
          ∃ ch ∈ c.newAlias.toList,
            ¬ (('a' ≤ ch ∧ ch ≤ 'z') ∨ ('0' ≤ ch ∧ ch ≤ '9') ∨
                ch = '-' ∨ ch = '@' ∨ ch = '_' ∨ ch = '.')))) ∧
    (c.newAlias = "" →
      (AccountInfoCtrl._validateNewAlias_beforeLookup c).invalidMinLength.truthy = false ∧
      (AccountInfoCtrl._validateNewAlias_beforeLookup c).invalidMaxLength.truthy = false ∧
      (AccountInfoCtrl._validateNewAlias_beforeLookup c).invalidPattern.truthy = false) ∧
    (c.noMoneyForFee = true →
      (AccountInfoCtrl._validateNewAlias_beforeLookup c).invalid = .boolean true) := by
  refine ⟨?_, ?_, ?_⟩
  · intro hne hfee
    have hinv : (AccountInfoCtrl._validateNewAlias_beforeLookup c).invalid.truthy =
        (decide (AccountInfoCtrl.jsLength c.newAlias < 4) ||
          decide (AccountInfoCtrl.jsLength c.newAlias > 30) ||
          !AccountInfoCtrl.ALIAS_PATTERN_test c.newAlias) := by
      simp only [AccountInfoCtrl._validateNewAlias_beforeLookup, and_string_of_ne _ _ hne, hfee,
        AccountInfoCtrl.MIN_ALIAS_LENGTH, AccountInfoCtrl.MAX_ALIAS_LENGTH]
      cases decide (AccountInfoCtrl.jsLength c.newAlias < 4) <;>
        cases decide (AccountInfoCtrl.jsLength c.newAlias > 30) <;>
        cases AccountInfoCtrl.ALIAS_PATTERN_test c.newAlias <;> rfl
    have hunits : (AccountInfoCtrl._validateNewAlias_beforeLookup c).invalid.truthy = true ↔
        (AccountInfoCtrl.jsLength c.newAlias < 4 ∨ 30 < AccountInfoCtrl.jsLength c.newAlias ∨
          ∃ ch ∈ c.newAlias.toList,
            ¬ (('a' ≤ ch ∧ ch ≤ 'z') ∨ ('0' ≤ ch ∧ ch ≤ '9') ∨
                ch = '-' ∨ ch = '@' ∨ ch = '_' ∨ ch = '.')) := by
      rw [hinv, ← test_eq_false_iff]
      simp only [Bool.or_eq_true, decide_eq_true_eq, Bool.not_eq_true', gt_iff_lt, or_assoc]
    refine ⟨?_, hunits⟩
    cases htest : AccountInfoCtrl.ALIAS_PATTERN_test c.newAlias with
    | true =>
      rw [← jsLength_of_aliasClass _ htest]
      exact hunits
    | false =>
      have hbad := (test_eq_false_iff c.newAlias).mp htest
      constructor
      · intro _
        exact Or.inr (Or.inr hbad)
      · intro _
        exact hunits.mpr (Or.inr (Or.inr hbad))
  · intro hempty
    simp [AccountInfoCtrl._validateNewAlias_beforeLookup, JSValue.and, JSValue.truthy, hempty]
  · intro hfee
    simp [AccountInfoCtrl._validateNewAlias_beforeLookup, JSValue.or, JSValue.truthy, hfee]

/-- C11, witness: with money for the fee, "ab" (too short) and "Alice" (a
capital letter) are invalid and "alice.01" is not; the empty alias sets none
of the three flags; without money for the fee "alice.01" is invalid. -/
theorem C11_validateNewAlias_witness :
    (AccountInfoCtrl.withAlias "ab" false).newAlias ≠ "" ∧
    (AccountInfoCtrl.withAlias "ab" false).noMoneyForFee = false ∧
    (AccountInfoCtrl._validateNewAlias_beforeLookup
      (AccountInfoCtrl.withAlias "ab" false)).invalid.truthy = true ∧
    (AccountInfoCtrl._validateNewAlias_beforeLookup
      (AccountInfoCtrl.withAlias "Alice" false)).invalid.truthy = true ∧
    (AccountInfoCtrl._validateNewAlias_beforeLookup
      (AccountInfoCtrl.withAlias "alice.01" false)).invalid.truthy = false ∧
    (AccountInfoCtrl._validateNewAlias_beforeLookup
      (AccountInfoCtrl.withAlias "" false)).invalidPattern.truthy = false ∧
    (AccountInfoCtrl._validateNewAlias_beforeLookup
      (AccountInfoCtrl.withAlias "alice.01" true)).invalid = .boolean true := by
  have hne : (AccountInfoCtrl.withAlias "ab" false).newAlias ≠ "" := by decide
  have hfee : (AccountInfoCtrl.withAlias "ab" false).noMoneyForFee = false := rfl
  have hshort := ((C11_validateNewAlias (AccountInfoCtrl.withAlias "ab" false)).1 hne hfee).1.mpr
    (Or.inl (by decide))
  have hempty := ((C11_validateNewAlias (AccountInfoCtrl.withAlias "" false)).2.1 rfl).2.2
  have hnofee := (C11_validateNewAlias (AccountInfoCtrl.withAlias "alice.01" true)).2.2 rfl
  exact ⟨hne, hfee, hshort, by decide, by decide, hempty, hnofee⟩

end WavesGUI
